import Mathlib

/-!
Verification of the expression-processing pipeline of the `mzums/calculator`
repository (`src/main.rs`): tokenizer → infix-to-postfix converter (`rpn`) →
postfix evaluator (`calc_value`), composed by `calculator`.

Modelling conventions:

* Strings are modelled as Lean `String`/`List Char`.  The inputs of interest
  are ASCII, so Rust byte positions coincide with character positions.
* `f64` values are modelled as `ℚ`.  Every arithmetic operation the verified
  claims exercise (`+`, `-`, `*`, `/` and `powf` with integer exponents on
  small integer arguments) is exact in `f64`, so the rational model agrees
  with the Rust code on those runs.  The transcendental parts
  (`f64::sin`/`cos`/`tan` applied to the radian conversion of the argument)
  are abstracted into a parameter `app : TrigFn → ℚ → ℚ`; no verified claim
  depends on their values, and all theorems are quantified over `app`.
* The Rust `tokenize` signals failure by printing a message and returning an
  empty vector.  `tokenizeOpt` returns `none` on that path and `tokenize`
  collapses it to `[]`, exactly as the callers observe it.
* The regex `\b(sin|cos|tg|ctg|<consts>)\b|\d*\.\d+|\d+|[()+\-*/^]` is
  embedded directly: Rust's `regex` crate uses leftmost-first semantics
  (smallest starting offset wins; among alternatives starting there, the
  earlier alternative wins), `\d` matches a decimal digit and `\b` is a
  word/non-word boundary.  `Regex::find` is called on the slice
  `&expression[pos..]`, so the boundary check at the start of the slice sees
  the start of a fresh haystack.  `regex::escape` on the constant names is
  the identity for the alphabetic identifiers the REPL admits, so constant
  names are matched literally.
-/

namespace Calculator

/-- Token from `struct Token { token: String, value: String }`: a pair of a
token-kind string (`"NUM"`, `"ADD"`, ...) and the literal text. -/
structure Token where
  token : String
  value : String
deriving DecidableEq, Repr

/-! ## Tokenizer (`fn tokenize`) -/

/-- Word characters of the regex `\b` boundary (`\w` = `[0-9A-Za-z_]`). -/
def isWordChar (c : Char) : Bool := c.isAlphanum || c == '_'

/-- The single-character alternative `[()+\-*/^]` of the token regex. -/
def opChars : List Char := ['(', ')', '+', '-', '*', '/', '^']

/-- The fixed function keywords of the token regex, in alternation order. -/
def baseKws : List String := ["sin", "cos", "tg", "ctg"]

/-- Keyword alternation of the regex: the function keywords followed by the
currently defined constant names (the constant table is modelled as an
association list, giving the join order of `consts.keys()`). -/
def kwList (consts : List (String × String)) : List String :=
  baseKws ++ consts.map Prod.fst

/-- Whether the keyword alternative `\b<kw>\b` matches at the start of `s`,
where `prev` is the character just before `s` in the haystack (`none` at the
start of the haystack).  The keywords in use start and end with word
characters, for which `\b` means: no word character on the other side. -/
def kwMatch (prev : Option Char) (s : List Char) (kw : String) : Bool :=
  (match prev with
   | none => true
   | some c => !isWordChar c)
  && !kw.data.isEmpty
  && kw.data.isPrefixOf s
  && (match s.drop kw.data.length with
      | [] => true
      | c :: _ => !isWordChar c)

/-- The alternative `\d*\.\d+` matched greedily at the start of `s`. -/
def matchDec (s : List Char) : Option (List Char) :=
  let d1 := s.takeWhile Char.isDigit
  match s.drop d1.length with
  | '.' :: r2 =>
    let d2 := r2.takeWhile Char.isDigit
    if d2.isEmpty then none else some (d1 ++ '.' :: d2)
  | _ => none

/-- The non-keyword alternatives `\d*\.\d+|\d+|[()+\-*/^]` anchored at the
start of `s`, in preference order. -/
def matchNum (s : List Char) : Option (List Char) :=
  match matchDec s with
  | some m => some m
  | none =>
    match s with
    | [] => none
    | c :: cs =>
      if c.isDigit then some (c :: cs.takeWhile Char.isDigit)
      else if opChars.contains c then some [c]
      else none

/-- Match of the whole token regex anchored at the start of `s`, trying the
alternatives in order (leftmost-first preference at a fixed offset). -/
def matchAt (kws : List String) (prev : Option Char) (s : List Char) :
    Option (List Char) :=
  match kws.find? (kwMatch prev s) with
  | some kw => some kw.data
  | none => matchNum s

/-- `Regex::find` on the haystack `s`: the match at the smallest starting
offset, returned as (number of characters skipped before the match, matched
characters).  `prev` is the character before the current offset, used by the
`\b` boundary check. -/
def findTok (kws : List String) : Option Char → List Char → Option (ℕ × List Char)
  | _, [] => none
  | prev, c :: rest =>
    match matchAt kws prev (c :: rest) with
    | some m => some (0, m)
    | none =>
      match findTok kws (some c) rest with
      | some p => some (p.1 + 1, p.2)
      | none => none

/-- `consts.get(val)` on the association-list model of the constant table. -/
def lookupConst (consts : List (String × String)) (k : String) : Option String :=
  (consts.find? (fun p => p.1 == k)).map Prod.snd

/-- The `match val { ... }` classifying a matched slice into a token kind;
`none` models the `"Invalid character found"` arm that returns `vec![]`. -/
def classifyTok (consts : List (String × String)) (val : String) : Option String :=
  if val = "(" then some "LPAREN"
  else if val = ")" then some "RPAREN"
  else if val = "*" then some "MUL"
  else if val = "/" then some "DIV"
  else if val = "+" then some "ADD"
  else if val = "-" then some "SUB"
  else if val = "^" then some "POW"
  else if val = "sin" then some "SIN"
  else if val = "cos" then some "COS"
  else if val = "tg" then some "TAN"
  else if val = "ctg" then some "COT"
  else if (lookupConst consts val).isSome then some "CONST"
  else if val.data.all (fun c => c.isDigit || c == '.') then some "NUM"
  else none

/-- The scanning loop of `tokenize`: repeatedly `find` on the remaining
input, classify the match, substitute constants, and advance past the match
(`pos += m.end()`, i.e. past the skipped characters and the match itself).
The fuel argument only bounds the recursion; every step consumes at least one
character, so `tokenizeOpt` supplies enough fuel for the whole input. -/
def tokLoopF (consts : List (String × String)) : ℕ → List Char → Option (List Token)
  | _, [] => some []
  | 0, _ :: _ => none
  | fuel + 1, c :: cs =>
    match findTok (kwList consts) none (c :: cs) with
    | none => none
    | some (skip, m) =>
      let val := String.mk m
      match classifyTok consts val with
      | none => none
      | some ty =>
        if ty = "CONST" then
          match lookupConst consts val with
          | some cv =>
            (tokLoopF consts fuel ((c :: cs).drop (skip + m.length))).map
              (Token.mk "NUM" cv :: ·)
          | none => none
        else
          (tokLoopF consts fuel ((c :: cs).drop (skip + m.length))).map
            (Token.mk ty val :: ·)

/-- `tokenize`, with the failure path (`return vec![]` after printing an
invalid-character message) kept distinct as `none`. -/
def tokenizeOpt (consts : List (String × String)) (expr : String) :
    Option (List Token) :=
  tokLoopF consts expr.data.length expr.data

/-- `fn tokenize(expression, consts) -> Vec<Token>`: failure is an empty
vector, exactly what the Rust callers receive. -/
def tokenize (consts : List (String × String)) (expr : String) : List Token :=
  (tokenizeOpt consts expr).getD []

/-! ## Infix-to-postfix converter (`fn rpn`) -/

/-- The `operators` set of `rpn` (a `HashSet` of operator symbols). -/
def rpnOps : List String := ["-", "+", "/", "*", "^"]

/-- The `trygo` set of `rpn` (the trig function value strings). -/
def trygoVals : List String := ["sin", "cos", "tg", "ctg"]

/-- The `precedence` map of `rpn`, keyed on token kinds.  The map contains
`"CTG"` although the tokenizer emits kind `"COT"` for `ctg`; the converter
never looks up trig kinds, so the discrepancy is unobservable. -/
def precOf : String → Option ℤ
  | "LPAREN" => some (-1)
  | "RPAREN" => some (-1)
  | "SIN" => some 0
  | "COS" => some 0
  | "TAN" => some 0
  | "CTG" => some 0
  | "SUB" => some 1
  | "ADD" => some 1
  | "DIV" => some 2
  | "MUL" => some 2
  | "POW" => some 3
  | _ => none

/-- The unary-minus position check
`i == 0 || operators.contains(tokens[i-1].value.as_str())`, phrased on the
previous token (`none` at the start of the token sequence). -/
def unaryPos (prev : Option Token) : Bool :=
  match prev with
  | none => true
  | some p => rpnOps.contains p.value

/-- The pop loop of the binary-operator branch: pop and emit stack tops whose
precedence is at least `current`; stop at the first top without that property
(or whose kind is not in the precedence map).  Returns the remaining stack
and the emitted values in pop order. -/
def popGE (current : ℤ) : List Token → List Token × List String
  | [] => ([], [])
  | top :: rest =>
    match precOf top.token with
    | some tp =>
      if tp ≥ current then
        let p := popGE current rest
        (p.1, top.value :: p.2)
      else (top :: rest, [])
    | none => (top :: rest, [])

/-- The pop loop of the `)` branch: pop and emit until a `(` is popped (the
`(` itself is discarded); an empty stack also ends the loop. -/
def popUntil : List Token → List Token × List String
  | [] => ([], [])
  | top :: rest =>
    if top.value = "(" then (rest, [])
    else
      let p := popUntil rest
      (p.1, top.value :: p.2)

/-- The end-of-input drain of the operator stack: emit everything whose value
is not a parenthesis, in pop order. -/
def drain : List Token → List String
  | [] => []
  | t :: ts =>
    if t.value ≠ ")" ∧ t.value ≠ "(" then t.value :: drain ts else drain ts

/-- The main loop of `rpn`.  `prev` is `tokens[i-1]` (`none` when `i == 0`),
`stack` the operator stack, `trygo` the pending trig-function stack, `out`
the postfix output so far and `paren` the `paren_count` counter.  The missing
precedence key in the binary-operator branch would be a Rust panic
(`precedence[...]`); it is unreachable for tokenizer-produced tokens and
modelled as precedence 0. -/
def rpnLoop : Option Token → List Token → List Token → List Token →
    List String → ℤ → Except String (List String)
  | _, [], stack, _, out, paren =>
    if paren > 0 then .error "Mismatched parentheses."
    else .ok (out ++ drain stack)
  | prev, t :: ts, stack, trygo, out, paren =>
    if t.value = "-" ∧ unaryPos prev then
      match ts with
      | [] => .error "Invalid syntax: Expected number after '-'."
      | t2 :: ts2 =>
        if t2.token = "NUM" then
          rpnLoop (some t2) ts2 stack trygo (out ++ ["-" ++ t2.value]) paren
        else .error "Invalid syntax: Expected number after '-'."
    else if t.token = "NUM" then
      rpnLoop (some t) ts stack trygo (out ++ [t.value]) paren
    else if rpnOps.contains t.value then
      let c := (precOf t.token).getD 0
      let p := popGE c stack
      rpnLoop (some t) ts (t :: p.1) trygo (out ++ p.2) paren
    else if trygoVals.contains t.value then
      rpnLoop (some t) ts stack (t :: trygo) out paren
    else if t.value = "(" then
      rpnLoop (some t) ts (t :: stack) trygo out (paren + 1)
    else if t.value = ")" then
      let q := popUntil stack
      let pf : List Token × List String :=
        match trygo with
        | f :: fs => if paren - 1 = 0 then (fs, [f.value]) else (f :: fs, [])
        | [] => ([], [])
      if paren - 1 < 0 then .error "Mismatched parentheses."
      else rpnLoop (some t) ts q.1 pf.1 (out ++ q.2 ++ pf.2) (paren - 1)
    else rpnLoop (some t) ts stack trygo out paren

/-- `fn rpn(tokens) -> Result<Vec<String>, String>`. -/
def rpn (tokens : List Token) : Except String (List String) :=
  rpnLoop none tokens [] [] [] 0

/-! ## Postfix evaluator (`fn calc_trygo`, `fn calc_value`) -/

/-- The three distinct `fn(f64) -> f64` pointers passed to `calc_trygo`
(`f64::sin`, `f64::cos`, `f64::tan`); the code compares the passed pointer
against `f64::tan`. -/
inductive TrigFn
  | sin
  | cos
  | tan
deriving DecidableEq, Repr

/-- Truncation toward zero, as in Rust's `trunc`. -/
def ftrunc (x : ℚ) : ℤ := if 0 ≤ x then ⌊x⌋ else ⌈x⌉

/-- Rust's `%` on `f64`: the exact remainder `x - trunc(x / y) * y`, which
floating point computes without rounding error. -/
def fmod (x y : ℚ) : ℚ := x - (ftrunc (x / y)) * y

/-- `f64::powf`.  For an integral exponent the result is the exact integer
power, which is what every verified claim exercises; the transcendental
non-integral case (and `powf`'s infinity at `0^-n`) is outside the rational
model and mapped to the `zpow` convention. -/
def powf (x y : ℚ) : ℚ := if y.den = 1 then x ^ y.num else 0

/-- `fn calc_trygo(x, func)`: at `x % 180.0 == 90.0` with `func == f64::tan`
the code reports an undefined tangent and substitutes `0.0`; otherwise it
computes `func(x.to_radians())`, modelled by the abstract `app func x`. -/
def calc_trygo (app : TrigFn → ℚ → ℚ) (x : ℚ) (func : TrigFn) : ℚ :=
  if fmod x 180 = 90 ∧ func = TrigFn.tan then 0
  else app func x

/-- Numeric value of a digit run (most significant first). -/
def digitsVal (l : List Char) : ℕ :=
  l.foldl (fun a c => a * 10 + (c.toNat - 48)) 0

/-- Decimal numeral `digits [ '.' [digits] ]` with at least one digit, the
shapes `token.parse::<f64>()` can receive from this pipeline; the parse is
exact in the rational model. -/
def parseDec (l : List Char) : Option ℚ :=
  let d1 := l.takeWhile Char.isDigit
  match l.drop d1.length with
  | [] => if d1.isEmpty then none else some (digitsVal d1 : ℚ)
  | '.' :: r2 =>
    let d2 := r2.takeWhile Char.isDigit
    if (r2.drop d2.length).isEmpty && !(d1.isEmpty && d2.isEmpty) then
      some ((digitsVal d1 : ℚ) + (digitsVal d2 : ℚ) / (10 : ℚ) ^ d2.length)
    else none
  | _ => none

/-- `token.parse::<f64>()` on the numeral tokens this pipeline produces:
an optional leading `-` (from the unary-minus rewrite) and a decimal
numeral. -/
def parseNum (s : String) : Option ℚ :=
  match s.data with
  | '-' :: rest => (parseDec rest).map Neg.neg
  | l => parseDec l

/-- `to_lowercase`, character by character (the tokens are ASCII). -/
def strLower (s : String) : String := String.mk (s.data.map Char.toLower)

/-- One iteration of the `for token in rpn` loop of `calc_value` on the value
stack (head = top of the `VecDeque` used as a stack); `none` is the early
`return None`.  The inner `match token.as_str()` arms reached with a
mixed-case trig name are `unreachable!()` panics in Rust; the tokenizer never
produces such tokens, and they are modelled as `none`. -/
def step (app : TrigFn → ℚ → ℚ) (st : List ℚ) (t : String) : Option (List ℚ) :=
  let low := strLower t
  if low = "*" ∨ low = "/" ∨ low = "+" ∨ low = "-" ∨ low = "^" then
    match st with
    | y :: x :: rest =>
      if t = "*" then some ((x * y) :: rest)
      else if t = "/" then
        if y = 0 then none else some ((x / y) :: rest)
      else if t = "+" then some ((x + y) :: rest)
      else if t = "-" then some ((x - y) :: rest)
      else if t = "^" then some (powf x y :: rest)
      else none
    | _ => none
  else if low = "sin" ∨ low = "cos" ∨ low = "tg" ∨ low = "ctg" then
    match st with
    | x :: rest =>
      if t = "sin" then some (calc_trygo app x TrigFn.sin :: rest)
      else if t = "cos" then some (calc_trygo app x TrigFn.cos :: rest)
      else if t = "tg" then some (calc_trygo app x TrigFn.tan :: rest)
      else if t = "ctg" then
        some ((if calc_trygo app x TrigFn.tan ≠ 0 then
                 powf (calc_trygo app x TrigFn.tan) (-1)
               else 0) :: rest)
      else none
    | [] => none
  else
    match parseNum t with
    | some num => some (num :: st)
    | none => none

/-- The whole token loop of `calc_value`, threading the value stack; `none`
is an early `return None` (which in the Rust code aborts the loop). -/
def runRpn (app : TrigFn → ℚ → ℚ) : List String → List ℚ → Option (List ℚ)
  | [], st => some st
  | t :: ts, st =>
    match step app st t with
    | none => none
    | some st2 => runRpn app ts st2

/-- `fn calc_value(rpn) -> Option<f64>`: run the loop on an empty stack and
succeed only when exactly one value remains. -/
def calc_value (app : TrigFn → ℚ → ℚ) (rpnSeq : List String) : Option ℚ :=
  match runRpn app rpnSeq [] with
  | none => none
  | some st => if st.length = 1 then st.head? else none

/-- `fn calculator(expr, consts) -> Option<f64>`: the full pipeline. -/
def calculator (app : TrigFn → ℚ → ℚ) (consts : List (String × String))
    (expr : String) : Option ℚ :=
  match rpn (tokenize consts expr) with
  | .ok out =>
    match calc_value app out with
    | some result => some result
    | none => none
  | .error _ => none

/-- A concrete trig interpretation used by witnesses; the claims hold for
every interpretation, this one just instantiates them. -/
def app0 : TrigFn → ℚ → ℚ := fun _ _ => 0

/-! ## Helper lemmas -/

/-- Kind/value sanity of a token around parentheses (true of every token the
tokenizer emits with a sane constant table). -/
def parenSane (t : Token) : Prop :=
  (t.value = "(" → t.token = "LPAREN") ∧ (t.value = ")" → t.token = "RPAREN") ∧
    (t.token = "NUM" → t.value ≠ "(" ∧ t.value ≠ ")")

/-- Count of tokens whose value is `"("`. -/
def lparCount (l : List Token) : ℕ := l.countP (fun t => t.value == "(")

/-- Count of tokens whose value is `")"`. -/
def rparCount (l : List Token) : ℕ := l.countP (fun t => t.value == ")")

lemma count_cons_ne (t : Token) (l : List Token)
    (h1 : t.value ≠ "(") (h2 : t.value ≠ ")") :
    lparCount (t :: l) = lparCount l ∧ rparCount (t :: l) = rparCount l := by
  simp [lparCount, rparCount, List.countP_cons, h1, h2]

set_option maxHeartbeats 1000000 in
lemma rpnLoop_ok_balance (prev : Option Token) (toks stack trygo : List Token)
    (out : List String) (p : ℤ) :
    (∀ t ∈ toks, parenSane t) → 0 ≤ p → ∀ res,
      rpnLoop prev toks stack trygo out p = .ok res →
      p + (lparCount toks : ℤ) = (rparCount toks : ℤ) := by
  induction prev, toks, stack, trygo, out, p using rpnLoop.induct with
  | case1 x stack x1 out paren hpos =>
    intro _ _ res hok
    rw [rpnLoop.eq_def] at hok
    simp only [if_pos hpos] at hok
    exact Except.noConfusion hok
  | case2 x stack x1 out paren hpos =>
    intro _ hp res _
    simp only [lparCount, rparCount, List.countP_nil]
    omega
  | case3 prev t stack trygo out paren hcond =>
    intro _ _ res hok
    rw [rpnLoop.eq_def] at hok
    simp only [if_pos hcond] at hok
    exact Except.noConfusion hok
  | case4 prev t stack trygo out paren hcond top rest htop ih =>
    intro hWF hp res hok
    rw [rpnLoop.eq_def] at hok
    simp only [if_pos hcond, if_pos htop] at hok
    have hrec := ih (fun u hu => hWF u (by simp [hu])) hp res hok
    have ht1 : t.value ≠ "(" := by rw [hcond.1]; decide
    have ht2 : t.value ≠ ")" := by rw [hcond.1]; decide
    have htop' := ((hWF top (by simp)).2.2) htop
    obtain ⟨e1, e2⟩ := count_cons_ne t (top :: rest) ht1 ht2
    obtain ⟨f1, f2⟩ := count_cons_ne top rest htop'.1 htop'.2
    rw [e1, e2, f1, f2]
    exact hrec
  | case5 prev t stack trygo out paren hcond top rest htop =>
    intro _ _ res hok
    rw [rpnLoop.eq_def] at hok
    simp only [if_pos hcond, if_neg htop] at hok
    exact Except.noConfusion hok
  | case6 prev t ts stack trygo out paren hneg hnum ih =>
    intro hWF hp res hok
    rw [rpnLoop.eq_def] at hok
    simp only [if_neg hneg, if_pos hnum] at hok
    have hrec := ih (fun u hu => hWF u (by simp [hu])) hp res hok
    have hv := ((hWF t (by simp)).2.2) hnum
    obtain ⟨e1, e2⟩ := count_cons_ne t ts hv.1 hv.2
    rw [e1, e2]
    exact hrec
  | case7 prev t ts stack trygo out paren hneg hnum hop c pp ih =>
    intro hWF hp res hok
    rw [rpnLoop.eq_def] at hok
    simp only [if_neg hneg, if_neg hnum, if_pos hop] at hok
    have hrec := ih (fun u hu => hWF u (by simp [hu])) hp res hok
    have h1 : t.value ≠ "(" := fun h => by rw [h] at hop; exact absurd hop (by decide)
    have h2 : t.value ≠ ")" := fun h => by rw [h] at hop; exact absurd hop (by decide)
    obtain ⟨e1, e2⟩ := count_cons_ne t ts h1 h2
    rw [e1, e2]
    exact hrec
  | case8 prev t ts stack trygo out paren hneg hnum hop htr ih =>
    intro hWF hp res hok
    rw [rpnLoop.eq_def] at hok
    simp only [if_neg hneg, if_neg hnum, if_neg hop, if_pos htr] at hok
    have hrec := ih (fun u hu => hWF u (by simp [hu])) hp res hok
    have h1 : t.value ≠ "(" := fun h => by rw [h] at htr; exact absurd htr (by decide)
    have h2 : t.value ≠ ")" := fun h => by rw [h] at htr; exact absurd htr (by decide)
    obtain ⟨e1, e2⟩ := count_cons_ne t ts h1 h2
    rw [e1, e2]
    exact hrec
  | case9 prev t ts stack trygo out paren hneg hnum hop htr hlp ih =>
    intro hWF hp res hok
    rw [rpnLoop.eq_def] at hok
    simp only [if_neg hneg, if_neg hnum, if_neg hop, if_neg htr, if_pos hlp] at hok
    have hrec := ih (fun u hu => hWF u (by simp [hu])) (by omega) res hok
    have h2 : t.value ≠ ")" := by rw [hlp]; decide
    have e1 : lparCount (t :: ts) = lparCount ts + 1 := by
      simp [lparCount, List.countP_cons, hlp]
    have e2 : rparCount (t :: ts) = rparCount ts := by
      simp [rparCount, List.countP_cons, h2]
    rw [e1, e2]
    push_cast
    push_cast at hrec
    omega
  | case10 prev t ts stack trygo out paren hneg hnum hop htr hlp hrp hneg2 =>
    intro _ _ res hok
    rw [rpnLoop.eq_def] at hok
    simp only [if_neg hneg, if_neg hnum, if_neg hop, if_neg htr, if_neg hlp,
      if_pos hrp, if_pos hneg2] at hok
    exact Except.noConfusion hok
  | case11 prev t ts stack trygo out paren hneg hnum hop htr hlp hrp q pf hge ih =>
    intro hWF hp res hok
    rw [rpnLoop.eq_def] at hok
    simp only [if_neg hneg, if_neg hnum, if_neg hop, if_neg htr, if_neg hlp,
      if_pos hrp, if_neg hge] at hok
    have hrec := ih (fun u hu => hWF u (by simp [hu])) (by omega) res hok
    have h1 : t.value ≠ "(" := by rw [hrp]; decide
    have e1 : lparCount (t :: ts) = lparCount ts := by
      simp [lparCount, List.countP_cons, h1]
    have e2 : rparCount (t :: ts) = rparCount ts + 1 := by
      simp [rparCount, List.countP_cons, hrp]
    rw [e1, e2]
    push_cast
    push_cast at hrec
    omega
  | case12 prev t ts stack trygo out paren hneg hnum hop htr hlp hrp ih =>
    intro hWF hp res hok
    rw [rpnLoop.eq_def] at hok
    simp only [if_neg hneg, if_neg hnum, if_neg hop, if_neg htr, if_neg hlp,
      if_neg hrp] at hok
    have hrec := ih (fun u hu => hWF u (by simp [hu])) hp res hok
    obtain ⟨e1, e2⟩ := count_cons_ne t ts hlp hrp
    rw [e1, e2]
    exact hrec


/-- A well-formed constant name: a nonempty alphabetic identifier, as the
REPL's assignment validation admits. -/
def alphaName (k : String) : Prop := k.data ≠ [] ∧ ∀ c ∈ k.data, c.isAlpha = true

lemma isPrefixOf_false_of_head (kw s : List Char) (c0 : Char)
    (hk : kw.head? = some c0) (hc0 : c0.isAlpha = true)
    (hs : ∀ c ∈ s, c.isAlpha = false) : kw.isPrefixOf s = false := by
  cases kw with
  | nil => simp at hk
  | cons a kr =>
    have ha : a = c0 := by simpa using hk
    cases s with
    | nil => rfl
    | cons b s2 =>
      have hb : b.isAlpha = false := hs b (by simp)
      have hne : (a == b) = false := by
        refine beq_eq_false_iff_ne.mpr ?_
        intro he
        rw [ha] at he
        rw [← he, hc0] at hb
        exact Bool.true_eq_false.mp hb
      simp [List.isPrefixOf, hne]

lemma kwMatch_false_alpha (prev : Option Char) (s : List Char) (kw : String)
    (hk : kw.data ≠ []) (ha : ∀ c ∈ kw.data, c.isAlpha = true)
    (hs : ∀ c ∈ s, c.isAlpha = false) : kwMatch prev s kw = false := by
  rcases hkd : kw.data with _ | ⟨c0, kr⟩
  · exact absurd hkd hk
  have hpf : kw.data.isPrefixOf s = false := by
    refine isPrefixOf_false_of_head _ _ c0 ?_ ?_ hs
    · rw [hkd]; rfl
    · exact ha c0 (by rw [hkd]; simp)
  simp [kwMatch, hpf]

lemma findKw_none (consts : List (String × String)) (prev : Option Char)
    (s : List Char) (hc : ∀ p ∈ consts, alphaName p.1)
    (hs : ∀ c ∈ s, c.isAlpha = false) :
    (kwList consts).find? (kwMatch prev s) = none := by
  rw [List.find?_eq_none]
  intro kw hkw
  rw [kwList, List.mem_append] at hkw
  rcases hkw with hb | hm
  · have hane : kw.data ≠ [] ∧ ∀ c ∈ kw.data, c.isAlpha = true := by
      simp only [baseKws, List.mem_cons, List.not_mem_nil, or_false] at hb
      rcases hb with rfl | rfl | rfl | rfl <;> exact ⟨by decide, by decide⟩
    simp [kwMatch_false_alpha prev s kw hane.1 hane.2 hs]
  · obtain ⟨p, hp, rfl⟩ := List.mem_map.mp hm
    have h2 := hc p hp
    simp [kwMatch_false_alpha prev s p.1 h2.1 h2.2 hs]

lemma matchAt_of_no_kw (kws : List String) (prev : Option Char) (s : List Char)
    (hfind : kws.find? (kwMatch prev s) = none) :
    matchAt kws prev s = matchNum s := by
  rw [matchAt.eq_def, hfind]

lemma matchAt_base (consts : List (String × String)) (prev : Option Char)
    (s : List Char) (hc : ∀ p ∈ consts, alphaName p.1)
    (hs : ∀ c ∈ s, c.isAlpha = false) :
    matchAt (kwList consts) prev s = matchAt (kwList []) prev s := by
  rw [matchAt_of_no_kw _ _ _ (findKw_none consts prev s hc hs),
    matchAt_of_no_kw _ _ _
      (findKw_none [] prev s (fun p hp => absurd hp (List.not_mem_nil p)) hs)]

lemma findTok_base (consts : List (String × String))
    (hc : ∀ p ∈ consts, alphaName p.1) :
    ∀ (s : List Char) (prev : Option Char), (∀ c ∈ s, c.isAlpha = false) →
      findTok (kwList consts) prev s = findTok (kwList []) prev s := by
  intro s
  induction s with
  | nil => intro prev _; rfl
  | cons c cs ih =>
    intro prev hs
    rw [findTok, findTok, matchAt_base consts prev _ hc hs,
      ih (some c) (fun d hd => hs d (by simp [hd]))]

lemma matchDec_head (s md : List Char) (h : matchDec s = some md) :
    ∃ c0, md.head? = some c0 ∧ c0 ∈ s := by
  rw [matchDec] at h
  rcases hd1 : s.takeWhile Char.isDigit with _ | ⟨j, jr⟩
  · rw [hd1] at h
    simp only [List.length_nil, List.drop_zero] at h
    split at h
    · split at h
      · exact absurd h (by simp)
      · have hmd := (Option.some.injEq _ _).mp h
        exact ⟨'.', by rw [← hmd]; rfl, by simp⟩
    · exact absurd h (by simp)
  · rw [hd1] at h
    have hj : j ∈ s := (List.takeWhile_sublist Char.isDigit).subset (by rw [hd1]; simp)
    split at h
    · simp only [] at h
      split at h
      · exact absurd h (by simp)
      · have hmd := (Option.some.injEq _ _).mp h
        exact ⟨j, by rw [← hmd]; rfl, hj⟩
    · exact absurd h (by simp)

lemma matchNum_head (s m : List Char) (h : matchNum s = some m) :
    ∃ c0, m.head? = some c0 ∧ c0 ∈ s := by
  rw [matchNum.eq_def] at h
  split at h
  · next md hd =>
    have hm : md = m := by simpa using h
    rw [← hm]
    exact matchDec_head s md hd
  · next hd =>
    split at h
    · exact absurd h (by simp)
    · next c cs =>
      split at h
      · have hm := (Option.some.injEq _ _).mp h
        exact ⟨c, by rw [← hm]; rfl, by simp⟩
      · split at h
        · have hm := (Option.some.injEq _ _).mp h
          exact ⟨c, by rw [← hm]; rfl, by simp⟩
        · exact absurd h (by simp)

lemma findTok_head (prev : Option Char) (s : List Char) (skip : ℕ)
    (m : List Char) (hs : ∀ c ∈ s, c.isAlpha = false)
    (h : findTok (kwList []) prev s = some (skip, m)) :
    ∃ c0, m.head? = some c0 ∧ c0 ∈ s := by
  induction s generalizing prev skip with
  | nil => rw [findTok] at h; exact absurd h (by simp)
  | cons c cs ih =>
    rw [findTok] at h
    split at h
    · next m2 hm =>
      have hm2 : m2 = m := ((by simpa using h : 0 = skip ∧ m2 = m)).2
      have hnum : matchNum (c :: cs) = some m2 := by
        rw [← matchAt_of_no_kw _ prev _
          (findKw_none [] prev _ (fun p hp => absurd hp (List.not_mem_nil p)) hs)]
        exact hm
      rw [← hm2]
      exact matchNum_head _ m2 hnum
    · next hm =>
      split at h
      · next pr hrec =>
        have hm2 : pr.2 = m := ((by simpa using h : pr.1 + 1 = skip ∧ pr.2 = m)).2
        obtain ⟨c0, hc0, hc0mem⟩ :=
          ih (some c) pr.1 (fun d hd => hs d (by simp [hd]))
            (by rw [← hm2]; exact hrec)
        exact ⟨c0, hc0, by simp [hc0mem]⟩
      · exact absurd h (by simp)


lemma lookupConst_nil (val : String) : lookupConst [] val = none := rfl

lemma lookupConst_none_of_head (consts : List (String × String)) (val : String)
    (hc : ∀ p ∈ consts, alphaName p.1) (c0 : Char)
    (hv : val.data.head? = some c0) (h0 : c0.isAlpha = false) :
    lookupConst consts val = none := by
  have hfind : consts.find? (fun p => p.1 == val) = none := by
    rw [List.find?_eq_none]
    intro p hp
    simp only [Bool.not_eq_true]
    refine beq_eq_false_iff_ne.mpr ?_
    intro he
    have hd : p.1.data = val.data := by rw [he]
    have hmem : c0 ∈ p.1.data := by
      rw [hd]
      rcases hvd : val.data with _ | ⟨a, r⟩
      · rw [hvd] at hv; simp at hv
      · rw [hvd] at hv
        have ha : a = c0 := by simpa using hv
        rw [ha] at hvd ⊢
        simp
    have h1 := (hc p hp).2 c0 hmem
    rw [h1] at h0
    exact Bool.true_eq_false.mp h0
  rw [lookupConst, hfind]
  rfl

lemma classifyTok_base (consts : List (String × String)) (val : String)
    (hl : lookupConst consts val = none) :
    classifyTok consts val = classifyTok [] val := by
  rw [classifyTok, classifyTok, hl, lookupConst_nil]

lemma tokLoopF_base (consts : List (String × String))
    (hc : ∀ p ∈ consts, alphaName p.1) :
    ∀ (fuel : ℕ) (s : List Char), (∀ c ∈ s, c.isAlpha = false) →
      tokLoopF consts fuel s = tokLoopF [] fuel s := by
  intro fuel
  induction fuel with
  | zero => intro s hs; cases s <;> rfl
  | succ n ih =>
    intro s hs
    cases s with
    | nil => rfl
    | cons c cs =>
      rw [tokLoopF, tokLoopF, findTok_base consts hc _ none hs]
      cases hf : findTok (kwList []) none (c :: cs) with
      | none => rfl
      | some pr =>
        obtain ⟨skip, m⟩ := pr
        obtain ⟨c0, hc0, hc0mem⟩ := findTok_head none (c :: cs) skip m hs hf
        have h0 : c0.isAlpha = false := hs c0 hc0mem
        have hl := lookupConst_none_of_head consts (String.mk m) hc c0 hc0 h0
        simp only []
        rw [classifyTok_base consts (String.mk m) hl]
        cases hcl : classifyTok [] (String.mk m) with
        | none => rfl
        | some ty =>
          simp only []
          by_cases hty : ty = "CONST"
          · rw [if_pos hty, if_pos hty, hl, lookupConst_nil]
          · rw [if_neg hty, if_neg hty,
              ih ((c :: cs).drop (skip + m.length))
                (fun d hd => hs d (List.mem_of_mem_drop hd))]

lemma tokenize_base (consts : List (String × String)) (expr : String)
    (hc : ∀ p ∈ consts, alphaName p.1)
    (hs : ∀ c ∈ expr.data, c.isAlpha = false) :
    tokenize consts expr = tokenize [] expr := by
  rw [tokenize, tokenize, tokenizeOpt, tokenizeOpt,
    tokLoopF_base consts hc expr.data.length expr.data hs]


lemma runRpn_append (app : TrigFn → ℚ → ℚ) (l1 l2 : List String) (st : List ℚ) :
    runRpn app (l1 ++ l2) st =
      match runRpn app l1 st with
      | none => none
      | some st2 => runRpn app l2 st2 := by
  induction l1 generalizing st with
  | nil => rfl
  | cons t ts ih =>
    simp only [List.cons_append, runRpn]
    cases step app st t with
    | none => rfl
    | some st2 => exact ih st2

lemma fmod_90_180 : fmod 90 180 = 90 := by
  have h : ftrunc ((90:ℚ) / 180) = 0 := by
    rw [ftrunc, if_pos (by norm_num)]
    norm_num
  rw [fmod, h]
  norm_num

lemma calculator_tokenize_congr (app : TrigFn → ℚ → ℚ)
    (c1 c2 : List (String × String)) (e1 e2 : String)
    (h : tokenize c1 e1 = tokenize c2 e2) :
    calculator app c1 e1 = calculator app c2 e2 := by
  unfold calculator
  rw [h]

/-! ## Claims -/

/-- Claim C1, counterexample: the tokenizer does NOT fail on the byte `x`
(which starts no token): on `"x+3"` it silently skips `x` and produces the
token sequence for `"+3"`, the very behavior the claim rules out. -/
theorem claim1_counterexample :
    tokenizeOpt [] "x+3" = some [Token.mk "ADD" "+", Token.mk "NUM" "3"] ∧
      tokenize [] "x+3" = [Token.mk "ADD" "+", Token.mk "NUM" "3"] :=
  ⟨rfl, rfl⟩

/-- Claim C1, amended: tokenization fails with the invalid-character error
exactly when the remaining input contains no token match at all (e.g. a
trailing unrecognized identifier); any byte that does not start a token
match — whitespace or not — is silently skipped whenever a later byte does
start a match. -/
theorem claim1_amended :
    (∀ (consts : List (String × String)) (expr : String) (c : Char)
       (cs : List Char), expr.data = c :: cs →
       findTok (kwList consts) none expr.data = none →
       tokenizeOpt consts expr = none) ∧
      tokenizeOpt [] "3 + foo" = none ∧ tokenize [] "3 + foo" = [] ∧
      tokenize [] "3 + 5" =
        [Token.mk "NUM" "3", Token.mk "ADD" "+", Token.mk "NUM" "5"] ∧
      tokenize [] "x+3" = [Token.mk "ADD" "+", Token.mk "NUM" "3"] := by
  refine ⟨?_, rfl, rfl, rfl, rfl⟩
  intro consts expr c cs hdata hfind
  rw [hdata] at hfind
  rw [tokenizeOpt, hdata, List.length_cons, tokLoopF, hfind]

theorem claim1_witness : tokenizeOpt [] "foo" = none :=
  claim1_amended.1 [] "foo" 'f' ['o', 'o'] rfl rfl

/-- Claim C2: the power operator is left-associative: `"2 ^ 3 ^ 2"` converts
to the postfix `["2","3","^","2","^"]` and evaluates to `64`, because the
converter pops stack-top operators of precedence ≥ the current one before
pushing — with no special case for `POW` (a `POW` on the stack is popped by
an incoming `POW`). -/
theorem claim2_pow_left_assoc :
    (∀ app : TrigFn → ℚ → ℚ, calculator app [] "2 ^ 3 ^ 2" = some 64) ∧
      rpn (tokenize [] "2 ^ 3 ^ 2") = .ok ["2", "3", "^", "2", "^"] ∧
      popGE 3 [Token.mk "POW" "^"] = ([], ["^"]) := by
  refine ⟨?_, rfl, rfl⟩
  intro app
  have h : rpn (tokenize [] "2 ^ 3 ^ 2") = .ok ["2", "3", "^", "2", "^"] := rfl
  have e2 : parseNum "2" = some 2 := by decide
  have e3 : parseNum "3" = some 3 := by decide
  simp +decide [calculator, h, calc_value, runRpn, step, e2, e3, powf]
  norm_num

/-- Claim C3: a `Sub` token is treated as unary negation exactly when it is
the first token or follows a token whose value is an operator symbol; in
that position the next token must be a `NUM` (the converter emits the
negated numeral and skips both tokens), otherwise the converter fails with
the unary-minus syntax error; hence `"-5 + 3"` evaluates to `-2` and
`"-5"` to `-5`. -/
theorem claim3_unary_minus :
    (∀ (prev : Option Token) (t t2 : Token) (ts2 stack trygo : List Token)
       (out : List String) (p : ℤ), t.value = "-" → unaryPos prev = true →
       t2.token = "NUM" →
       rpnLoop prev (t :: t2 :: ts2) stack trygo out p =
         rpnLoop (some t2) ts2 stack trygo (out ++ ["-" ++ t2.value]) p) ∧
    (∀ (prev : Option Token) (t t2 : Token) (ts2 stack trygo : List Token)
       (out : List String) (p : ℤ), t.value = "-" → unaryPos prev = true →
       t2.token ≠ "NUM" →
       rpnLoop prev (t :: t2 :: ts2) stack trygo out p =
         .error "Invalid syntax: Expected number after '-'.") ∧
    (∀ (prev : Option Token) (t : Token) (stack trygo : List Token)
       (out : List String) (p : ℤ), t.value = "-" → unaryPos prev = true →
       rpnLoop prev [t] stack trygo out p =
         .error "Invalid syntax: Expected number after '-'.") ∧
    unaryPos none = true ∧
    (∀ t : Token, unaryPos (some t) = rpnOps.contains t.value) ∧
    (∀ app : TrigFn → ℚ → ℚ, calculator app [] "-5 + 3" = some (-2)) ∧
    (∀ app : TrigFn → ℚ → ℚ, calculator app [] "-5" = some (-5)) ∧
    rpn (tokenize [] "3 - -(5)") =
      .error "Invalid syntax: Expected number after '-'." := by
  refine ⟨?_, ?_, ?_, rfl, fun t => rfl, ?_, fun app => rfl, rfl⟩
  · intro prev t t2 ts2 stack trygo out p ht hu hnum
    rw [rpnLoop.eq_def]
    simp only [if_pos (show t.value = "-" ∧ unaryPos prev = true from ⟨ht, hu⟩),
      if_pos hnum]
  · intro prev t t2 ts2 stack trygo out p ht hu hnum
    rw [rpnLoop.eq_def]
    simp only [if_pos (show t.value = "-" ∧ unaryPos prev = true from ⟨ht, hu⟩),
      if_neg hnum]
  · intro prev t stack trygo out p ht hu
    rw [rpnLoop.eq_def]
    simp only [if_pos (show t.value = "-" ∧ unaryPos prev = true from ⟨ht, hu⟩)]
  · intro app
    have h : rpn (tokenize [] "-5 + 3") = .ok ["-5", "3", "+"] := rfl
    have e5 : parseNum "-5" = some (-5) := by decide
    have e3 : parseNum "3" = some 3 := by decide
    simp +decide [calculator, h, calc_value, runRpn, step, e5, e3]
    norm_num

theorem claim3_witness :
    rpnLoop none [Token.mk "SUB" "-", Token.mk "NUM" "5"] [] [] [] 0 =
      .ok ["-5"] := by
  rw [claim3_unary_minus.1 none (Token.mk "SUB" "-") (Token.mk "NUM" "5")
    [] [] [] [] 0 rfl rfl rfl]
  rfl

/-- Claim C4: whenever the postfix sequence executes a division whose right
operand (the stack top) is exactly `0`, the whole evaluation — and hence the
whole pipeline — returns `none`, with no partial result. -/
theorem claim4_div_zero :
    ∀ (app : TrigFn → ℚ → ℚ) (consts : List (String × String))
      (expr : String) (pre post : List String) (st : List ℚ),
      rpn (tokenize consts expr) = .ok (pre ++ "/" :: post) →
      runRpn app pre [] = some st → st.head? = some 0 →
      calculator app consts expr = none := by
  intro app consts expr pre post st hrpn hrun hhead
  have hstep : step app st "/" = none := by
    rcases st with _ | ⟨y, st2⟩
    · simp at hhead
    · have hy : y = 0 := by simpa using hhead
      subst hy
      rcases st2 with _ | ⟨x, st3⟩ <;> rfl
  have hcv : calc_value app (pre ++ "/" :: post) = none := by
    rw [calc_value, runRpn_append, hrun]
    simp only [runRpn, hstep]
  unfold calculator
  rw [hrpn]
  simp only [hcv]

theorem claim4_witness : calculator app0 [] "5 / 0" = none :=
  claim4_div_zero app0 [] "5 / 0" ["5", "0"] [] [0, 5] rfl rfl rfl


instance (t : Token) : Decidable (parenSane t) := by
  unfold parenSane
  infer_instance

instance (k : String) : Decidable (alphaName k) := by
  unfold alphaName
  infer_instance

/-- Claim C5, counterexample: the token sequence of `"5 - -("` has
unbalanced parentheses (one `"("`, no `")"`), yet the converter fails with
the unary-minus syntax error, not with `"Mismatched parentheses."`. -/
theorem claim5_counterexample :
    rpn (tokenize [] "5 - -(") =
      .error "Invalid syntax: Expected number after '-'." ∧
    lparCount (tokenize [] "5 - -(") = 1 ∧
    rparCount (tokenize [] "5 - -(") = 0 ∧
    "Invalid syntax: Expected number after '-'." ≠ "Mismatched parentheses." :=
  ⟨rfl, rfl, rfl, by decide⟩

/-- Claim C5, amended: unbalanced parentheses always cause the converter to
fail — it never returns `Ok` on a paren-unbalanced token sequence — and the
failure is `"Mismatched parentheses."` whenever the paren-depth check itself
fires: a `")"` reached at depth ≤ 0, or end of input at depth > 0, as in
`"3 + 5)"` and `"(3 + 5"`; but a malformed unary minus encountered earlier
aborts the scan with the unary-minus syntax error instead. -/
theorem claim5_amended :
    (∀ (toks : List Token) (out : List String), (∀ t ∈ toks, parenSane t) →
       rpn toks = .ok out → lparCount toks = rparCount toks) ∧
    (∀ (prev : Option Token) (ts stack trygo : List Token) (out : List String)
       (p : ℤ), p ≤ 0 →
       rpnLoop prev (Token.mk "RPAREN" ")" :: ts) stack trygo out p =
         .error "Mismatched parentheses.") ∧
    (∀ (prev : Option Token) (stack trygo : List Token) (out : List String)
       (p : ℤ), 0 < p →
       rpnLoop prev [] stack trygo out p = .error "Mismatched parentheses.") ∧
    rpn (tokenize [] "3 + 5)") = .error "Mismatched parentheses." ∧
    rpn (tokenize [] "(3 + 5") = .error "Mismatched parentheses." := by
  refine ⟨?_, ?_, ?_, rfl, rfl⟩
  · intro toks out hWF hok
    have h := rpnLoop_ok_balance none toks [] [] [] 0 hWF le_rfl out hok
    exact_mod_cast by linarith [h]
  · intro prev ts stack trygo out p hp
    rw [rpnLoop.eq_def]
    have h1 : ¬((Token.mk "RPAREN" ")").value = "-" ∧ unaryPos prev = true) :=
      fun hc => absurd hc.1 (by decide)
    simp only [if_neg h1,
      if_neg (by decide : ¬(Token.mk "RPAREN" ")").token = "NUM"),
      if_neg (by decide : ¬rpnOps.contains (Token.mk "RPAREN" ")").value = true),
      if_neg (by decide : ¬trygoVals.contains (Token.mk "RPAREN" ")").value = true),
      if_neg (by decide : ¬(Token.mk "RPAREN" ")").value = "("),
      if_pos (by decide : (Token.mk "RPAREN" ")").value = ")")]
    rw [if_pos (show p - 1 < 0 by omega)]
    simp
  · intro prev stack trygo out p hp
    rw [rpnLoop.eq_def]
    simp only [if_pos hp]

theorem claim5_witness :
    lparCount (tokenize [] "(5)") = rparCount (tokenize [] "(5)") :=
  claim5_amended.1 (tokenize [] "(5)") ["5"] (by decide) rfl

/-- Claim C6: for every argument with `x % 180.0 == 90.0` the tangent path
of `calc_trygo` substitutes `0` (after reporting the undefined value) rather
than applying the trig function; in particular `"tg(90)"` evaluates to
`some 0`. -/
theorem claim6_tangent_undefined :
    (∀ (app : TrigFn → ℚ → ℚ) (x : ℚ), fmod x 180 = 90 →
       calc_trygo app x TrigFn.tan = 0) ∧
    (∀ app : TrigFn → ℚ → ℚ, calculator app [] "tg(90)" = some 0) := by
  constructor
  · intro app x hx
    rw [calc_trygo, if_pos ⟨hx, rfl⟩]
  · intro app
    have h : rpn (tokenize [] "tg(90)") = .ok ["90", "tg"] := rfl
    have e : parseNum "90" = some 90 := by decide
    simp +decide [calculator, h, calc_value, runRpn, step, e, calc_trygo,
      fmod_90_180]

theorem claim6_witness : calc_trygo app0 90 TrigFn.tan = 0 :=
  claim6_tangent_undefined.1 app0 90 fmod_90_180

/-- Claim C7: the postfix evaluator returns `some v` exactly when the run
of the whole sequence on an empty stack leaves exactly the one value `v`;
on the malformations it returns `none` without crashing: operator underflow
(`["+"]`), trig underflow (`["tg"]`), an unparsable numeral token
(`["abc"]`), and more than one value left (`["1","2"]`). -/
theorem claim7_stack_discipline :
    (∀ (app : TrigFn → ℚ → ℚ) (l : List String) (v : ℚ),
       calc_value app l = some v ↔ runRpn app l [] = some [v]) ∧
    (∀ app : TrigFn → ℚ → ℚ, calc_value app ["+"] = none) ∧
    (∀ app : TrigFn → ℚ → ℚ, calc_value app ["tg"] = none) ∧
    (∀ app : TrigFn → ℚ → ℚ, calc_value app ["abc"] = none) ∧
    (∀ app : TrigFn → ℚ → ℚ, calc_value app ["1", "2"] = none) := by
  refine ⟨?_, fun app => rfl, fun app => rfl, fun app => rfl, fun app => rfl⟩
  intro app l v
  rw [calc_value]
  rcases h : runRpn app l [] with _ | st
  · simp
  · rcases st with _ | ⟨x, st2⟩
    · simp
    · rcases st2 with _ | ⟨y, st3⟩
      · simp
      · simp

theorem claim7_witness : runRpn app0 ["3"] [] = some [3] :=
  (claim7_stack_discipline.1 app0 ["3"] 3).mp rfl

/-- Claim C8: constant substitution happens at tokenize time — with the
table mapping `PI` to `"3.1415"`, `"2 * PI"` tokenizes to the very token
sequence of `"2 * 3.1415"` (the matched name becomes a `NUM` token carrying
the stored numeral text), so the two expressions evaluate identically, the
second under any constant table whose keys are (nonempty alphabetic)
identifiers not occurring in it. -/
theorem claim8_const_substitution :
    tokenize [("PI", "3.1415")] "2 * PI" =
      [Token.mk "NUM" "2", Token.mk "MUL" "*", Token.mk "NUM" "3.1415"] ∧
    tokenize [("PI", "3.1415")] "2 * PI" = tokenize [] "2 * 3.1415" ∧
    (∀ (app : TrigFn → ℚ → ℚ) (consts2 : List (String × String)),
       (∀ p ∈ consts2, alphaName p.1) →
       calculator app [("PI", "3.1415")] "2 * PI" =
         calculator app consts2 "2 * 3.1415") := by
  have h2 : tokenize [("PI", "3.1415")] "2 * PI" = tokenize [] "2 * 3.1415" := rfl
  refine ⟨rfl, h2, ?_⟩
  intro app consts2 hc
  refine calculator_tokenize_congr app _ _ _ _ ?_
  rw [tokenize_base consts2 "2 * 3.1415" hc (by decide)]
  exact h2

theorem claim8_witness :
    calculator app0 [("PI", "3.1415")] "2 * PI" =
      calculator app0 [("E", "2.7")] "2 * 3.1415" :=
  claim8_const_substitution.2.2 app0 [("E", "2.7")] (by decide)

/-- Claim C9: pending trig functions still on the function stack at end of
input are silently dropped (the end-of-input drain ignores the function
stack entirely); a `")"` emits at most the most recently pushed pending
function and only when the depth returns to zero; hence `"sin 30"` produces
the postfix `["30"]` and evaluates to `some 30`, and `"sin(cos(30))"` emits
only `"cos"`, dropping `"sin"`. -/
theorem claim9_trig_dropped :
    (∀ (prev : Option Token) (stack trygo trygo2 : List Token)
       (out : List String) (p : ℤ),
       rpnLoop prev [] stack trygo out p = rpnLoop prev [] stack trygo2 out p) ∧
    (∀ (prev : Option Token) (ts stack : List Token) (f : Token)
       (fs : List Token) (out : List String) (p : ℤ), p - 1 = 0 →
       rpnLoop prev (Token.mk "RPAREN" ")" :: ts) stack (f :: fs) out p =
         rpnLoop (some (Token.mk "RPAREN" ")")) ts (popUntil stack).1 fs
           (out ++ (popUntil stack).2 ++ [f.value]) (p - 1)) ∧
    (∀ (prev : Option Token) (ts stack : List Token) (f : Token)
       (fs : List Token) (out : List String) (p : ℤ), p - 1 ≠ 0 → ¬(p - 1 < 0) →
       rpnLoop prev (Token.mk "RPAREN" ")" :: ts) stack (f :: fs) out p =
         rpnLoop (some (Token.mk "RPAREN" ")")) ts (popUntil stack).1 (f :: fs)
           (out ++ (popUntil stack).2 ++ []) (p - 1)) ∧
    rpn (tokenize [] "sin 30") = .ok ["30"] ∧
    (∀ app : TrigFn → ℚ → ℚ, calculator app [] "sin 30" = some 30) ∧
    rpn (tokenize [] "sin(cos(30))") = .ok ["30", "cos"] := by
  refine ⟨fun prev stack trygo trygo2 out p => rfl, ?_, ?_, rfl, fun app => rfl, rfl⟩
  · intro prev ts stack f fs out p hp
    rw [rpnLoop.eq_def]
    have h1 : ¬((Token.mk "RPAREN" ")").value = "-" ∧ unaryPos prev = true) :=
      fun hc => absurd hc.1 (by decide)
    simp only [if_neg h1,
      if_neg (by decide : ¬(Token.mk "RPAREN" ")").token = "NUM"),
      if_neg (by decide : ¬rpnOps.contains (Token.mk "RPAREN" ")").value = true),
      if_neg (by decide : ¬trygoVals.contains (Token.mk "RPAREN" ")").value = true),
      if_neg (by decide : ¬(Token.mk "RPAREN" ")").value = "("),
      if_pos (by decide : (Token.mk "RPAREN" ")").value = ")")]
    rw [if_pos hp, if_neg (show ¬(p - 1 < 0) by omega)]
    simp
  · intro prev ts stack f fs out p hp hneg
    rw [rpnLoop.eq_def]
    have h1 : ¬((Token.mk "RPAREN" ")").value = "-" ∧ unaryPos prev = true) :=
      fun hc => absurd hc.1 (by decide)
    simp only [if_neg h1,
      if_neg (by decide : ¬(Token.mk "RPAREN" ")").token = "NUM"),
      if_neg (by decide : ¬rpnOps.contains (Token.mk "RPAREN" ")").value = true),
      if_neg (by decide : ¬trygoVals.contains (Token.mk "RPAREN" ")").value = true),
      if_neg (by decide : ¬(Token.mk "RPAREN" ")").value = "("),
      if_pos (by decide : (Token.mk "RPAREN" ")").value = ")")]
    rw [if_neg hp, if_neg hneg]
    simp

theorem claim9_witness :
    rpnLoop none [Token.mk "RPAREN" ")"] [Token.mk "LPAREN" "("]
      [Token.mk "SIN" "sin"] ["30"] 1 = .ok ["30", "sin"] := by
  rw [claim9_trig_dropped.2.1 none [] [Token.mk "LPAREN" "("]
    (Token.mk "SIN" "sin") [] ["30"] 1 rfl]
  rfl

/-- Claim C10: `"("` is not in the operator set the unary-minus adjacency
check consults, so a minus right after an opening parenthesis is treated as
a binary `Sub` with a missing left operand: `"(-5)"` converts to the postfix
`["5","-"]` and evaluates to `none`, not `some (-5)`. -/
theorem claim10_paren_minus_binary :
    (∀ t : Token, t.value = "(" → unaryPos (some t) = false) ∧
    rpn (tokenize [] "(-5)") = .ok ["5", "-"] ∧
    (∀ app : TrigFn → ℚ → ℚ, calculator app [] "(-5)" = none) := by
  refine ⟨?_, rfl, fun app => rfl⟩
  intro t ht
  rw [unaryPos.eq_def]
  simp only [ht]
  decide

theorem claim10_witness : unaryPos (some (Token.mk "LPAREN" "(")) = false :=
  claim10_paren_minus_binary.1 (Token.mk "LPAREN" "(") rfl

end Calculator
